import Mathlib

/-!
Shallow embedding of the RAG question-answering core of the repository:
`src/agents/qa_agent.py` together with the batch upload path in
`src/main.py`.  The `VectorStore` component (`src/agents/vector_store.py`)
is imported by the agent but its source file is not part of the tree, so
its operations are modelled from the specification where needed; every
such definition carries a doc comment starting with `Modelled from the
spec:`.

Text is represented as `List Char`; Python's machine floats are modelled
as rationals; external calls (embedding provider, generation provider)
are oracle parameters; persistence (pickle save/load) and logging are
omitted.
-/

/-- Python `str.strip()` on a list of characters: drop leading and
trailing whitespace. -/
def pstrip (l : List Char) : List Char :=
  ((l.dropWhile Char.isWhitespace).reverse.dropWhile Char.isWhitespace).reverse

/-- Helper for `collapseWs`: the boolean records whether the previous
character was whitespace (so a whitespace run emits a single space). -/
def collapseWsAux : Bool → List Char → List Char
  | _, [] => []
  | inWs, c :: r =>
    if c.isWhitespace then
      if inWs then collapseWsAux true r
      else ' ' :: collapseWsAux true r
    else c :: collapseWsAux false r

/-- `re.sub(r"\s+", " ", text)`: every maximal whitespace run becomes a
single space (qa_agent.py line 153). -/
def collapseWs (l : List Char) : List Char := collapseWsAux false l

/-- `QAAgent._clean_text` (qa_agent.py lines 150-155): collapse
whitespace runs, then strip. -/
def cleanText (l : List Char) : List Char := pstrip (collapseWs l)

/-- The backward search for a sentence-terminal character within the
last `min 100 chunk_size` positions (qa_agent.py lines 179-184); returns
the adjusted end position. -/
def findBoundary (text : List Char) (endPos cs : Nat) : Nat :=
  match (List.range (min 100 cs)).find? (fun i =>
      match text.get? (endPos - i - 1) with
      | some c => c == '.' || c == '!' || c == '?'
      | none => false) with
  | some i => endPos - i
  | none => endPos

/-- End position of the window starting at `start` (qa_agent.py lines
176-184): boundary search happens only when the hard end is inside the
text. -/
def chunkEnd (text : List Char) (cs start : Nat) : Nat :=
  if start + cs < text.length then findBoundary text (start + cs) cs
  else start + cs

/-- The next window start produced by one iteration of the chunking
loop: `start = end - overlap` (qa_agent.py line 190). -/
def chunkStep (text : List Char) (cs ov start : Nat) : Nat :=
  chunkEnd text cs start - ov

/-- The `while start < len(text)` loop of `QAAgent._chunk_text`
(qa_agent.py lines 175-194), with explicit fuel: `none` models running
out of fuel, i.e. the loop failing to finish within the given number of
iterations. -/
def chunkLoop (text : List Char) (cs ov : Nat) :
    Nat → Nat → List (List Char) → Option (List (List Char))
  | 0, _, _ => none
  | fuel + 1, start, acc =>
    if start < text.length then
      chunkLoop text cs ov fuel (chunkStep text cs ov start)
        (if pstrip ((text.drop start).take (chunkEnd text cs start - start)) = []
         then acc
         else acc ++ [pstrip ((text.drop start).take (chunkEnd text cs start - start))])
    else
      some acc

/-- `QAAgent._chunk_text` (qa_agent.py lines 157-196).  A text no longer
than the chunk size is returned as a single chunk; otherwise the sliding
window loop runs, with `text.length + 1` fuel (enough for any loop that
makes forward progress every iteration). -/
def chunkText (text : List Char) (cs ov : Nat) : Option (List (List Char)) :=
  if text.length ≤ cs then some [text]
  else chunkLoop text cs ov (text.length + 1) 0 []

/-! ## Data model

One chunk's metadata record, as built by `QAAgent.add_document`
(qa_agent.py lines 88-96) and by the batch path in `main.py` (lines
865-873 and 894): a fixed record standing for the Python dict.  `id` is
the key added by the batch append path; `full_text` is the separately
stored chunk text the spec's data model describes for a VectorRecord
("short text preview, full chunk text"), absent (`none`) unless the
store's append sets it. -/
structure ChunkMeta where
  user_id : Option String
  doc_id : String
  chunk_index : Nat
  title : String
  doc_title : String
  upload_time : String
  text : List Char
  id : Option String
  full_text : Option (List Char)
deriving Repr, DecidableEq

/-- An embedding vector.  Coordinates are modelled as integers (exact
stand-ins for the provider's floats; every claim about the search
depends only on sign and cross-multiplied comparisons, which are
computed exactly below). -/
abbrev Vec := List Int

/-- The VectorStore state: the two parallel lists the agent and
`main.py` manipulate directly (`vectors`, `metadata`), plus the
dimension field read by `main.py` lines 899-905. -/
structure VectorStore where
  vectors : List Vec
  metadata : List ChunkMeta
  dimension : Option Nat
deriving Repr, DecidableEq

/-- An in-memory document entry (`self.documents`, qa_agent.py lines
76-84). -/
structure StoredDoc where
  doc_id : String
  user_id : Option String
  text : List Char
  title : String
  chunks : List (List Char)
  upload_time : String
deriving Repr, DecidableEq

/-- The QAAgent state relevant to the claims. -/
structure Agent where
  user_id : Option String
  documents : List StoredDoc
  store : VectorStore
deriving Repr, DecidableEq

/-- Python truthiness of `self.user_id` (an optional string): `None`
and `""` are falsy. -/
def truthyU : Option String → Bool
  | none => false
  | some s => s ≠ ""

/-- The Store invariant of the spec: vectors and metadata lists have
equal length. -/
abbrev lenEq (s : VectorStore) : Prop := s.vectors.length = s.metadata.length

/-! ## VectorStore operations -/

/-- Modelled from the spec: `VectorStore.add_text` (called at
qa_agent.py line 97; its source file is absent) embeds the text and
appends one VectorRecord — vector and metadata in step, setting the
dimension if unset.  The record keeps the caller's metadata fields
(including its `text` preview) and separately carries the full chunk
text, mirroring the record shape visible in the batch append of
`main.py` lines 894-897, where the caller's metadata mapping overrides
the separately supplied chunk text. -/
def VectorStore.add_text (s : VectorStore) (emb : List Char → Vec)
    (text : List Char) (m : ChunkMeta) : VectorStore :=
  { vectors := s.vectors ++ [emb text]
    metadata := s.metadata ++ [{ m with full_text := some text }]
    dimension := match s.dimension with
      | some d => some d
      | none => some (emb text).length }

/-- Modelled from the spec: `VectorStore.clear` (called at qa_agent.py
line 432; source file absent) empties both arrays and resets the
dimension. -/
def VectorStore.clear (_s : VectorStore) : VectorStore :=
  { vectors := [], metadata := [], dimension := none }

/-- The ascending list of indices whose metadata matches the predicate:
the `indices_to_remove` loop of `QAAgent._remove_document_by_id`
(qa_agent.py lines 361-364). -/
def idxsOf (p : ChunkMeta → Bool) : List ChunkMeta → List Nat
  | [] => []
  | m :: r => (if p m then [0] else []) ++ (idxsOf p r).map (· + 1)

/-- The reverse-order pop loop of `QAAgent._remove_document_by_id`
(qa_agent.py lines 366-370): pop index `i` from both lists, guarded by
`i < len(vectors)`. -/
def popPairs (v : List Vec) (m : List ChunkMeta) : List Nat → List Vec × List ChunkMeta
  | [] => (v, m)
  | i :: r =>
    if i < v.length then popPairs (v.eraseIdx i) (m.eraseIdx i) r
    else popPairs v m r

/-- `QAAgent._remove_document_by_id` (qa_agent.py lines 355-373):
remove every chunk record of the document from the store and drop the
document from the in-memory list. -/
def removeDocumentById (a : Agent) (docId : String) : Agent :=
  let p : ChunkMeta → Bool := fun m => m.doc_id == docId
  let idxs := (idxsOf p a.store.metadata).reverse
  let vm := popPairs a.store.vectors a.store.metadata idxs
  { a with
    store := { a.store with vectors := vm.1, metadata := vm.2 }
    documents := a.documents.filter (fun d => d.doc_id ≠ docId) }

/-! ## Retention (cleanup) -/

/-- The `doc_times` mapping of `QAAgent._cleanup_user_documents`
(qa_agent.py lines 332-344): for the records whose `user_id` equals the
agent's, record each non-empty document id with the upload time of its
first-occurring record, in first-occurrence order. -/
def docTimes (metas : List ChunkMeta) (uid : Option String) :
    List (String × String) :=
  (metas.filter (fun m => m.user_id == uid)).foldl
    (fun acc m =>
      if m.doc_id ≠ "" ∧ (acc.lookup m.doc_id).isNone then
        acc ++ [(m.doc_id, m.upload_time)]
      else acc)
    []

/-- Stable insertion into a list kept ascending by upload time (ties
keep the existing element first), modelling Python's stable
`sorted(..., key=lambda x: x[1])`. -/
def insSorted (x : String × String) : List (String × String) → List (String × String)
  | [] => [x]
  | y :: r => if x.2 < y.2 then x :: y :: r else y :: insSorted x r

/-- Stable ascending sort by upload time (qa_agent.py line 348). -/
def sortByTime (l : List (String × String)) : List (String × String) :=
  l.foldl (fun acc x => insSorted x acc) []

/-- `QAAgent._cleanup_user_documents` (qa_agent.py lines 327-353): when
the agent's user id is truthy and the user's distinct document count
meets or exceeds the cap, remove the oldest `count - cap + 1`
documents. -/
def cleanupUserDocuments (a : Agent) (maxDocs : Nat) : Agent :=
  if truthyU a.user_id = false then a
  else
    let dt := docTimes a.store.metadata a.user_id
    if maxDocs ≤ dt.length then
      let toRemove := (sortByTime dt).take (dt.length - maxDocs + 1)
      toRemove.foldl (fun ag p => removeDocumentById ag p.1) a
    else a

/-! ## Ingestion -/

/-- The preview stored in the metadata `text` field (qa_agent.py line
95 and main.py line 872): `chunk[:100] + "..."` when the chunk exceeds
100 characters, else the chunk itself. -/
def preview (chunk : List Char) : List Char :=
  if 100 < chunk.length then chunk.take 100 ++ "...".data else chunk

/-- The metadata dict built for one chunk by `QAAgent.add_document`
(qa_agent.py lines 88-96). -/
def mkChunkMeta (user : Option String) (d title ts : String) (idx : Nat)
    (chunk : List Char) : ChunkMeta :=
  { user_id := user, doc_id := d, chunk_index := idx, title := title,
    doc_title := title, upload_time := ts, text := preview chunk,
    id := none, full_text := none }

/-- `QAAgent.add_document` (qa_agent.py lines 39-109).  The fresh
document id and the timestamp are passed in (uuid4 and `datetime.now`
are external); the embedder is an oracle; persistence (`load`/`save`)
is omitted.  Returns the Python boolean result together with the new
agent state. -/
def addDocument (a : Agent) (emb : List Char → Vec) (text : List Char)
    (title d ts : String) : Bool × Agent :=
  if (pstrip text).length < 10 then (false, a)
  else
    let a1 := cleanupUserDocuments a 5
    let cleaned := cleanText text
    match chunkText cleaned 1000 200 with
    | none => (false, a1)
    | some [] => (false, a1)
    | some chunks =>
      let doc : StoredDoc :=
        { doc_id := d, user_id := a.user_id, text := cleaned,
          title := title, chunks := chunks, upload_time := ts }
      let a2 := { a1 with documents := a1.documents ++ [doc] }
      let store2 := chunks.enum.foldl
        (fun st ic =>
          st.add_text emb ic.2 (mkChunkMeta a.user_id d title ts ic.1 ic.2))
        a2.store
      (true, { a2 with store := store2 })

/-- The batch append of `upload_multiple_files` (main.py lines
885-898): for each (embedding, metadata, chunk) triple, when the
embedding is truthy append the vector and the metadata dict
`{"id": vec_i, "text": chunk, **metadata}` — the caller's metadata
fields (including its `text` preview) override the chunk text. -/
def batchAppend (s : VectorStore)
    (items : List (Option Vec × ChunkMeta × List Char)) : VectorStore :=
  items.foldl
    (fun st it =>
      match it.1 with
      | some v =>
        if v ≠ [] then
          { st with
            vectors := st.vectors ++ [v]
            metadata := st.metadata ++
              [{ it.2.1 with
                  id := some ("vec_" ++ toString st.vectors.length) }] }
        else st
      | none => st)
    s

/-! ## Similarity search (spec-modelled) and retrieval -/

/-- Dot product of two vectors. -/
def dotProd (a b : Vec) : Int := ((a.zip b).map (fun p => p.1 * p.2)).sum

/-- Squared Euclidean norm. -/
def normSq (v : Vec) : Int := dotProd v v

/-- Whether `cosine q v ≥ t`, computed exactly without square roots:
with `d = q·v` and `n = |q|²·|v|²`, for `t ≥ 0` the condition is
`d ≥ 0 ∧ d²·den(t)² ≥ num(t)²·n`, for `t < 0` it is
`d ≥ 0 ∨ d²·den(t)² ≤ num(t)²·n`; a zero-norm vector has cosine 0
(spec §4.3). -/
def cosineGE (q v : Vec) (t : ℚ) : Bool :=
  let d := dotProd q v
  let n := normSq q * normSq v
  if n = 0 then decide (0 ≥ t)
  else if 0 ≤ t then
    decide (0 ≤ d) && decide (t.num ^ 2 * n ≤ d ^ 2 * (t.den : Int) ^ 2)
  else
    decide (0 ≤ d) || decide (d ^ 2 * (t.den : Int) ^ 2 ≤ t.num ^ 2 * n)

/-- Whether `cosine q a > cosine q b`, square-root-free; zero-norm
records score 0 (represented as the pair (0, 1)). -/
def scoreGT (q a b : Vec) : Bool :=
  let pa := if normSq q * normSq a = 0 then ((0 : Int), (1 : Int))
            else (dotProd q a, normSq q * normSq a)
  let pb := if normSq q * normSq b = 0 then ((0 : Int), (1 : Int))
            else (dotProd q b, normSq q * normSq b)
  if 0 ≤ pa.1 then
    if pb.1 < 0 then true
    else decide (pb.1 ^ 2 * pa.2 < pa.1 ^ 2 * pb.2)
  else
    if 0 ≤ pb.1 then false
    else decide (pa.1 ^ 2 * pb.2 < pb.1 ^ 2 * pa.2)

/-- Insert a record into a list kept in descending score order; on ties
the existing (earlier-inserted) record stays first. -/
def insertRanked (q : Vec) (x : Vec × ChunkMeta) :
    List (Vec × ChunkMeta) → List (Vec × ChunkMeta)
  | [] => [x]
  | y :: r => if scoreGT q x.1 y.1 then x :: y :: r else y :: insertRanked q x r

/-- Modelled from the spec: `VectorStore.similarity_search` (called at
qa_agent.py lines 226-240; source file absent) embeds the query — the
embedding provider may fail, modelled as `Except` — computes cosine
similarity against every record, optionally restricted to the owner
when the owner key is truthy, excludes scores below `minSim`, and
returns the top `top_k` in descending score order with ties broken by
insertion order. -/
def similaritySearchE (s : VectorStore) (emb : List Char → Except (List Char) Vec)
    (query : List Char) (top_k : Nat) (minSim : ℚ) (user : Option String) :
    Except (List Char) (List (Vec × ChunkMeta)) := do
  let qv ← emb query
  let recs := s.vectors.zip s.metadata
  let recs := if truthyU user then recs.filter (fun p => p.2.user_id == user)
              else recs
  let recs := recs.filter (fun p => cosineGE qv p.1 minSim)
  let ranked := recs.foldl (fun acc p => insertRanked qv p acc) []
  pure (ranked.take top_k)

/-- The similarity threshold 0.1 of the first search (qa_agent.py line
229), as a rational in normal form. -/
def simThreshold : ℚ := ⟨1, 10, by decide, Nat.coprime_one_left 10⟩

/-- The "most recent document" fallback used three times inside
`QAAgent._get_relevant_context` (qa_agent.py lines 216-221, 256-262 and
273-278): the first 2000 characters of the last in-memory document, or
the empty string. -/
def latestFallback (a : Agent) : List Char :=
  match a.documents.getLast? with
  | some d => d.text.take 2000
  | none => []

/-- One labelled context block (qa_agent.py line 254):
`[From: title]` then a newline, followed by the record's metadata
`text` field. -/
def fromLabel (p : Vec × ChunkMeta) : List Char :=
  "[From: ".data ++ p.2.title.data ++ "]\n".data ++ p.2.text

/-- `QAAgent._get_relevant_context` (qa_agent.py lines 203-278): search
at threshold 0.1, retry at 0.0 when empty, assemble the labelled
blocks joined by the separator; fall back to the most recent document
when no results remain or when the search raised. -/
def getRelevantContext (a : Agent) (emb : List Char → Except (List Char) Vec)
    (question : List Char) (top_k : Nat) : List Char :=
  let body : Except (List Char) (List Char) := do
    if a.store.vectors = [] then
      pure (latestFallback a)
    else
      let r1 ← similaritySearchE a.store emb question top_k simThreshold a.user_id
      let rs ←
        if r1 = [] then similaritySearchE a.store emb question top_k 0 a.user_id
        else pure r1
      let chunksL := rs.map fromLabel
      if chunksL = [] then pure (latestFallback a)
      else pure (List.intercalate "\n\n---\n\n".data chunksL)
  match body with
  | .ok c => c
  | .error _ => latestFallback a

/-! ## Answer generation -/

/-- The apostrophe character, used inside the fixed message texts. -/
def apos : Char := Char.ofNat 39

/-- The system prompt of `QAAgent._generate_answer` (qa_agent.py lines
292-301). -/
def systemPromptChars : List Char :=
  "You are a helpful AI assistant that answers questions based on provided context.\n\nINSTRUCTIONS:\n1. Answer the question using ONLY the information provided in the context\n2. If the answer isn".data
    ++ [apos] ++
  "t clearly in the context, say so honestly\n3. Be specific and cite relevant parts when possible\n4. Keep answers concise but complete\n5. If context contains multiple sources, you can reference them\n\nFormat your response naturally and conversationally.".data

/-- The user prompt of `QAAgent._generate_answer` (qa_agent.py lines
303-308). -/
def userPromptChars (context question : List Char) : List Char :=
  "Context:\n".data ++ context ++ "\n\nQuestion: ".data ++ question ++
  "\n\nPlease answer the question based on the context provided above.".data

/-- `QAAgent._generate_answer` (qa_agent.py lines 281-325): call the
generation provider; strip the reply; a provider failure is caught and
rendered as a descriptive string. -/
def generateAnswer (gen : List Char → List Char → Except (List Char) (List Char))
    (question context : List Char) : List Char :=
  match gen systemPromptChars (userPromptChars context question) with
  | .ok s => pstrip s
  | .error e => "Error generating answer: ".data ++ e

/-- The fixed "no relevant information found" message (qa_agent.py line
137). -/
def msgNoRelevant : List Char :=
  "I couldn".data ++ [apos] ++
  "t find relevant information in the uploaded documents to answer your question.".data

/-- The fixed "no documents available" message (qa_agent.py line 127). -/
def msgNoDocs : List Char :=
  "No documents have been uploaded yet. Please upload a document first, then ask your question.".data

/-- The outer `try/except` of `answer_question` (qa_agent.py lines
121-148): any error of the body is caught and rendered as
`Error answering question: ...`. -/
def catchToOk (b : Except (List Char) (List Char)) :
    Except (List Char) (List Char) :=
  match b with
  | .ok s => .ok s
  | .error e => .ok ("Error answering question: ".data ++ e)

/-- `QAAgent.answer_question` (qa_agent.py lines 111-148), with the
outer try/except modelled by catching any error of the body and
rendering it as a descriptive string. -/
def answerQuestionE (a : Agent) (emb : List Char → Except (List Char) Vec)
    (gen : List Char → List Char → Except (List Char) (List Char))
    (question : List Char) : Except (List Char) (List Char) :=
  catchToOk
    (if (pstrip question).length < 3 then
      .ok "Please provide a valid question.".data
    else if a.store.vectors = [] then .ok msgNoDocs
    else
      let ctx := getRelevantContext a emb question 3
      if ctx = [] then .ok msgNoRelevant
      else .ok (generateAnswer gen question ctx))


/-! ## Chunking lemmas -/

theorem findBoundary_le (text : List Char) (e cs : Nat) :
    findBoundary text e cs ≤ e := by
  unfold findBoundary
  split
  · omega
  · omega

theorem findBoundary_ge (text : List Char) (e cs : Nat) (h : 100 ≤ cs) :
    e - 99 ≤ findBoundary text e cs := by
  unfold findBoundary
  split
  next i hf =>
    have hi := List.mem_of_find?_eq_some hf
    rw [List.mem_range] at hi
    omega
  next => omega

theorem chunkEnd_ge (text : List Char) (cs start : Nat) (h : 100 ≤ cs) :
    start + cs - 99 ≤ chunkEnd text cs start := by
  unfold chunkEnd
  split
  · exact findBoundary_ge text (start + cs) cs h
  · omega

theorem chunkEnd_le (text : List Char) (cs start : Nat) :
    chunkEnd text cs start ≤ start + cs := by
  unfold chunkEnd
  split
  · exact findBoundary_le text (start + cs) cs
  · omega

/-- Forward progress of the chunking loop when the overlap is at least
100 below the chunk size (which includes the defaults 1000/200). -/
theorem chunkStep_progress (text : List Char) (cs ov start : Nat)
    (h : ov + 100 ≤ cs) : start < chunkStep text cs ov start := by
  have h1 := chunkEnd_ge text cs start (by omega)
  unfold chunkStep
  omega

theorem chunkLoop_isSome (text : List Char) (cs ov : Nat) (h : ov + 100 ≤ cs) :
    ∀ fuel start acc, text.length - start < fuel →
      (chunkLoop text cs ov fuel start acc).isSome = true := by
  intro fuel
  induction fuel with
  | zero => intro start acc hf; omega
  | succ f ih =>
    intro start acc hf
    rw [chunkLoop]
    split
    next hs =>
      apply ih
      have := chunkStep_progress text cs ov start h
      omega
    next => rfl

theorem chunkText_isSome (text : List Char) (cs ov : Nat) (h : ov + 100 ≤ cs) :
    (chunkText text cs ov).isSome = true := by
  unfold chunkText
  split
  · rfl
  · exact chunkLoop_isSome text cs ov h (text.length + 1) 0 [] (by omega)

/-- The loop only ever appends to its accumulator. -/
theorem chunkLoop_acc (text : List Char) (cs ov : Nat) :
    ∀ fuel start acc l, chunkLoop text cs ov fuel start acc = some l →
      ∃ r, l = acc ++ r := by
  intro fuel
  induction fuel with
  | zero => intro start acc l hl; simp [chunkLoop] at hl
  | succ f ih =>
    intro start acc l hl
    rw [chunkLoop] at hl
    split at hl
    next hs =>
      split at hl
      next => exact ih _ _ _ hl
      next =>
        obtain ⟨r, hr⟩ := ih _ _ _ hl
        exact ⟨_, by rw [hr, List.append_assoc]⟩
    next =>
      exact ⟨[], by simpa using hl.symm⟩

/-! ## Whitespace-only input (claim C6) -/

theorem dropWhile_nil_of_all (p : Char → Bool) (l : List Char)
    (h : ∀ c ∈ l, p c = true) : l.dropWhile p = [] :=
  List.dropWhile_eq_nil_iff.mpr h

theorem pstrip_nil_of_ws (l : List Char)
    (h : ∀ c ∈ l, c.isWhitespace = true) : pstrip l = [] := by
  unfold pstrip
  rw [dropWhile_nil_of_all _ _ h]
  rfl

theorem collapseWsAux_all_ws (l : List Char)
    (h : ∀ c ∈ l, c.isWhitespace = true) :
    ∀ b, ∀ c ∈ collapseWsAux b l, c.isWhitespace = true := by
  induction l with
  | nil => intro b c hc; simp [collapseWsAux] at hc
  | cons a r ih =>
    intro b c hc
    have ha : a.isWhitespace = true := h a (List.mem_cons_self a r)
    have hr : ∀ c ∈ r, c.isWhitespace = true := fun c hc => h c (List.mem_cons_of_mem a hc)
    rw [collapseWsAux, ha] at hc
    simp only [if_true] at hc
    cases b with
    | true => exact ih hr true c hc
    | false =>
      rcases List.mem_cons.mp hc with h1 | h2
      · rw [h1]; rfl
      · exact ih hr true c h2

theorem cleanText_nil_of_ws (t : List Char)
    (h : ∀ c ∈ t, c.isWhitespace = true) : cleanText t = [] :=
  pstrip_nil_of_ws _ (collapseWsAux_all_ws t h false)

/-- C5 counterexample: with chunk size 1 and overlap 1 (allowed by the
claim, which quantifies over every chunk size > 0 and overlap ≥ 0) the
loop makes no forward progress — the next start equals the previous
start 0 — and chunking `"aaaaa"` does not finish within its fuel. -/
theorem chunk_progress_counterexample :
    chunkStep "ab".data 1 1 0 = 0 ∧ chunkText "aaaaa".data 1 1 = none := by
  decide

/-- C5 (amended): whenever `overlap + 100 ≤ chunk_size` — in particular
for the defaults 1000/200 used by `add_document` — every iteration of
the chunking loop strictly increases the window start, and chunking
terminates (returns a finite chunk list rather than running out of
fuel). -/
theorem chunk_progress_and_termination (text : List Char) (cs ov start : Nat)
    (h : ov + 100 ≤ cs) :
    start < chunkStep text cs ov start ∧ (chunkText text cs ov).isSome = true :=
  ⟨chunkStep_progress text cs ov start h, chunkText_isSome text cs ov h⟩

/-- Witness for `chunk_progress_and_termination` at the default
parameters. -/
theorem chunk_progress_and_termination_witness :
    200 + 100 ≤ 1000 ∧
      (0 < chunkStep "ab. cd".data 1000 200 0 ∧
        (chunkText "ab. cd".data 1000 200).isSome = true) :=
  ⟨by decide, chunk_progress_and_termination "ab. cd".data 1000 200 0 (by decide)⟩

/-- C6 counterexample: chunking the empty string returns the one-element
list containing the empty string, not the empty list of chunks. -/
theorem chunk_empty_counterexample :
    chunkText [] 1000 200 = some [[]] ∧ chunkText [] 1000 200 ≠ some [] := by
  decide

/-- C6 (amended): chunking the empty string — and chunking the
normalization of any whitespace-only text — returns `[""]`, the
one-element list containing the empty string, rather than the empty
list. -/
theorem chunk_ws_singleton_empty (t : List Char)
    (h : ∀ c ∈ t, c.isWhitespace = true) :
    chunkText (cleanText t) 1000 200 = some [[]] := by
  rw [cleanText_nil_of_ws t h]
  decide

/-- Witness for `chunk_ws_singleton_empty` on a whitespace-only text. -/
theorem chunk_ws_singleton_empty_witness :
    (∀ c ∈ "  \t ".data, c.isWhitespace = true) ∧
      chunkText (cleanText "  \t ".data) 1000 200 = some [[]] :=
  ⟨by decide, chunk_ws_singleton_empty "  \t ".data (by decide)⟩

/-! ## Deletion by document id (claims C7, C8) -/

theorem popPairs_append (l1 : List Nat) :
    ∀ (l2 : List Nat) (v : List Vec) (m : List ChunkMeta),
      popPairs v m (l1 ++ l2) =
        popPairs (popPairs v m l1).1 (popPairs v m l1).2 l2 := by
  induction l1 with
  | nil => intro l2 v m; rfl
  | cons i r ih =>
    intro l2 v m
    simp only [List.cons_append, popPairs, List.append_eq]
    by_cases hi : i < v.length
    · rw [if_pos hi, if_pos hi, ih]
    · rw [if_neg hi, if_neg hi, ih]

theorem popPairs_map_succ (idxs : List Nat) :
    ∀ (a : Vec) (x : ChunkMeta) (v : List Vec) (m : List ChunkMeta),
      popPairs (a :: v) (x :: m) (idxs.map (· + 1)) =
        (a :: (popPairs v m idxs).1, x :: (popPairs v m idxs).2) := by
  induction idxs with
  | nil => intro a x v m; rfl
  | cons i r ih =>
    intro a x v m
    simp only [List.map_cons, popPairs, List.length_cons]
    by_cases hi : i < v.length
    · rw [if_pos (by omega), if_pos hi, List.eraseIdx_cons_succ,
        List.eraseIdx_cons_succ]
      exact ih a x _ _
    · rw [if_neg (by omega), if_neg hi]
      exact ih a x v m

/-- The reverse-order pop loop applied to the ascending match indices
removes exactly the matching records, in a length-preserving,
order-preserving way: it equals a filter on the (parallel) record
pairs. -/
theorem popPairs_idxs_filter (p : ChunkMeta → Bool) :
    ∀ (m : List ChunkMeta) (v : List Vec), v.length = m.length →
      popPairs v m (idxsOf p m).reverse =
        (((v.zip m).filter (fun q => !p q.2)).map Prod.fst,
          m.filter (fun x => !p x)) := by
  intro m
  induction m with
  | nil =>
    intro v hv
    have : v = [] := List.length_eq_zero.mp hv
    subst this
    rfl
  | cons x m' ih =>
    intro v hv
    cases v with
    | nil => simp at hv
    | cons a v' =>
      have hv' : v'.length = m'.length := by simpa using hv
      rw [idxsOf, List.reverse_append, popPairs_append,
        ← List.map_reverse, popPairs_map_succ, ih v' hv']
      by_cases hp : p x
      · simp [hp, popPairs]
      · simp [hp, popPairs]

theorem idxsOf_eq_nil (p : ChunkMeta → Bool) (m : List ChunkMeta)
    (h : ∀ x ∈ m, p x = false) : idxsOf p m = [] := by
  induction m with
  | nil => rfl
  | cons x r ih =>
    rw [idxsOf, h x (List.mem_cons_self x r),
      ih (fun y hy => h y (List.mem_cons_of_mem x hy))]
    rfl

theorem removeDocumentById_eq_self (a : Agent) (d : String)
    (hm : ∀ x ∈ a.store.metadata, (x.doc_id == d) = false)
    (hd : ∀ s ∈ a.documents, decide (s.doc_id ≠ d) = true) :
    removeDocumentById a d = a := by
  simp only [removeDocumentById, idxsOf_eq_nil _ _ hm, List.reverse_nil, popPairs]
  rw [List.filter_eq_self.mpr hd]

theorem popPairs_lenEq : ∀ (idxs : List Nat) (v : List Vec) (m : List ChunkMeta),
    v.length = m.length →
      (popPairs v m idxs).1.length = (popPairs v m idxs).2.length := by
  intro idxs
  induction idxs with
  | nil => intro v m h; exact h
  | cons i r ih =>
    intro v m h
    simp only [popPairs]
    by_cases hi : i < v.length
    · rw [if_pos hi]
      apply ih
      rw [List.length_eraseIdx, List.length_eraseIdx, if_pos hi, if_pos (h ▸ hi)]
      omega
    · rw [if_neg hi]
      exact ih v m h

/-- Under the length invariant, deletion by document id filters the
metadata list. -/
theorem removeDocumentById_metadata (a : Agent) (d : String)
    (h : lenEq a.store) :
    (removeDocumentById a d).store.metadata
      = a.store.metadata.filter (fun m => !(m.doc_id == d)) := by
  simp only [removeDocumentById]
  rw [popPairs_idxs_filter (fun m => m.doc_id == d) a.store.metadata
    a.store.vectors h]

/-- C7: deleting by document id removes exactly the records whose
metadata document id equals `d` (both parallel lists become the
order-preserving filter of the original records), and deleting the
same id a second time removes zero records (the deletion is
idempotent). -/
theorem removeDocumentById_spec (a : Agent) (d : String) (h : lenEq a.store) :
    (removeDocumentById a d).store.metadata
        = a.store.metadata.filter (fun m => !(m.doc_id == d)) ∧
      (removeDocumentById a d).store.vectors
        = ((a.store.vectors.zip a.store.metadata).filter
            (fun q => !(q.2.doc_id == d))).map Prod.fst ∧
      removeDocumentById (removeDocumentById a d) d = removeDocumentById a d := by
  have key := popPairs_idxs_filter (fun m => m.doc_id == d) a.store.metadata
    a.store.vectors h
  have hmeta := removeDocumentById_metadata a d h
  refine ⟨hmeta, ?_, ?_⟩
  · simp only [removeDocumentById]
    rw [key]
  · apply removeDocumentById_eq_self
    · intro x hx
      rw [hmeta] at hx
      have := List.of_mem_filter hx
      simpa using this
    · intro s hs
      have hmem : s ∈ a.documents.filter (fun s => decide (s.doc_id ≠ d)) := by
        simpa only [removeDocumentById] using hs
      exact (List.mem_filter.mp hmem).2

/-- Witness for `removeDocumentById_spec` on a concrete two-record
store. -/
theorem removeDocumentById_spec_witness :
    lenEq (VectorStore.mk [[1], [2]]
      [{ user_id := some "u1", doc_id := "d1", chunk_index := 0, title := "T",
         doc_title := "T", upload_time := "t1", text := [], id := none,
         full_text := none },
       { user_id := some "u2", doc_id := "d2", chunk_index := 0, title := "T",
         doc_title := "T", upload_time := "t2", text := [], id := none,
         full_text := none }] (some 1)) ∧
      (removeDocumentById
          (Agent.mk (some "u1") []
            (VectorStore.mk [[1], [2]]
              [{ user_id := some "u1", doc_id := "d1", chunk_index := 0,
                 title := "T", doc_title := "T", upload_time := "t1",
                 text := [], id := none, full_text := none },
               { user_id := some "u2", doc_id := "d2", chunk_index := 0,
                 title := "T", doc_title := "T", upload_time := "t2",
                 text := [], id := none, full_text := none }] (some 1)))
          "d1").store.metadata
        = [{ user_id := some "u2", doc_id := "d2", chunk_index := 0,
             title := "T", doc_title := "T", upload_time := "t2",
             text := [], id := none, full_text := none }] := by
  constructor
  · decide
  · have h := (removeDocumentById_spec
      (Agent.mk (some "u1") []
        (VectorStore.mk [[1], [2]]
          [{ user_id := some "u1", doc_id := "d1", chunk_index := 0,
             title := "T", doc_title := "T", upload_time := "t1",
             text := [], id := none, full_text := none },
           { user_id := some "u2", doc_id := "d2", chunk_index := 0,
             title := "T", doc_title := "T", upload_time := "t2",
             text := [], id := none, full_text := none }] (some 1)))
      "d1" (by decide)).1
    rw [h]
    decide

theorem batchAppend_lenEq :
    ∀ (items : List (Option Vec × ChunkMeta × List Char)) (s : VectorStore),
      lenEq s → lenEq (batchAppend s items) := by
  intro items
  induction items with
  | nil => intro s h; exact h
  | cons it r ih =>
    intro s h
    simp only [batchAppend, List.foldl_cons]
    rcases it with ⟨ov, m, c⟩
    cases ov with
    | none => exact ih s h
    | some v =>
      by_cases hv : v ≠ []
      · simp only [if_pos hv]
        apply ih
        have h' : s.vectors.length = s.metadata.length := h
        simp only [lenEq, List.length_append, List.length_cons,
          List.length_nil, h']
      · simp only [if_neg hv]
        exact ih s h

/-- C8: each store-mutating operation — appending one embedded chunk
(`add_text`, used per chunk by `add_document`), the batch append of
`upload_multiple_files`, removing a document's records, and clearing —
preserves the invariant that the vectors list and the metadata list
have the same length, assuming it held before. -/
theorem store_ops_preserve_lenEq (s : VectorStore) (emb : List Char → Vec)
    (t : List Char) (m : ChunkMeta)
    (items : List (Option Vec × ChunkMeta × List Char)) (a : Agent)
    (d : String) :
    (lenEq s → lenEq (s.add_text emb t m)) ∧
      (lenEq s → lenEq (batchAppend s items)) ∧
      (lenEq a.store → lenEq (removeDocumentById a d).store) ∧
      lenEq s.clear := by
  refine ⟨?_, ?_, ?_, ?_⟩
  · intro h
    have h' : s.vectors.length = s.metadata.length := h
    simp only [lenEq, VectorStore.add_text, List.length_append,
      List.length_cons, List.length_nil, h']
  · exact batchAppend_lenEq items s
  · intro h
    simp only [removeDocumentById, lenEq]
    exact popPairs_lenEq _ _ _ h
  · rfl

/-- Witness for `store_ops_preserve_lenEq` on concrete stores. -/
theorem store_ops_preserve_lenEq_witness :
    lenEq (VectorStore.mk [] [] none) ∧
      lenEq ((VectorStore.mk [] [] none).add_text (fun _ => [1]) "hello".data
        { user_id := none, doc_id := "d", chunk_index := 0, title := "T",
          doc_title := "T", upload_time := "", text := [], id := none,
          full_text := none }) :=
  ⟨rfl,
    (store_ops_preserve_lenEq (VectorStore.mk [] [] none) (fun _ => [1])
      "hello".data
      { user_id := none, doc_id := "d", chunk_index := 0, title := "T",
        doc_title := "T", upload_time := "", text := [], id := none,
        full_text := none }
      [] (Agent.mk none [] (VectorStore.mk [] [] none)) "d").1 rfl⟩

/-! ## answer_question never raises (claim C9) -/

theorem catchToOk_isOk (b : Except (List Char) (List Char)) :
    ∃ s, catchToOk b = .ok s := by
  cases b with
  | ok s => exact ⟨s, rfl⟩
  | error e => exact ⟨_, rfl⟩

/-- C9: for every agent state, question, and behaviour of the embedding
and generation providers (including failures, modelled as `Except`
errors), `answer_question` returns a string and never propagates an
error to its caller: internal failures resolve to descriptive error
strings (`Error generating answer: ...` inside `_generate_answer`,
`Error answering question: ...` in the outer handler). -/
theorem answerQuestion_never_raises (a : Agent)
    (emb : List Char → Except (List Char) Vec)
    (gen : List Char → List Char → Except (List Char) (List Char))
    (question : List Char) :
    ∃ s, answerQuestionE a emb gen question = .ok s := by
  unfold answerQuestionE
  exact catchToOk_isOk _

/-! ## add_document never sees zero chunks (claim C3) -/

theorem pstrip_eq_nil_iff (l : List Char) :
    pstrip l = [] ↔ ∀ c ∈ l, c.isWhitespace = true := by
  constructor
  · intro h c hc
    unfold pstrip at h
    rw [List.reverse_eq_nil_iff, List.dropWhile_eq_nil_iff] at h
    have hdrop : ∀ c ∈ l.dropWhile Char.isWhitespace, c.isWhitespace = true := by
      intro c hc
      exact h c (List.mem_reverse.mpr hc)
    have hsplit := List.takeWhile_append_dropWhile Char.isWhitespace l
    rw [← hsplit] at hc
    rcases List.mem_append.mp hc with h1 | h2
    · exact List.mem_takeWhile_imp h1
    · exact hdrop c h2
  · exact pstrip_nil_of_ws l

theorem pstrip_prefix_dropWhile (l : List Char) :
    pstrip l <+: l.dropWhile Char.isWhitespace := by
  unfold pstrip
  rw [← List.reverse_reverse (l.dropWhile Char.isWhitespace)]
  rw [List.reverse_prefix, List.reverse_reverse]
  exact List.dropWhile_suffix Char.isWhitespace

theorem dropWhile_head?_false (p : Char → Bool) (l : List Char) (c : Char)
    (h : (l.dropWhile p).head? = some c) : p c = false := by
  induction l with
  | nil => simp [List.dropWhile] at h
  | cons a r ih =>
    rw [List.dropWhile] at h
    by_cases ha : p a
    · rw [ha] at h
      exact ih (by simpa using h)
    · rw [Bool.not_eq_true] at ha
      rw [ha] at h
      simp only [List.head?_cons, Option.some.injEq] at h
      rw [← h]
      exact ha

theorem prefix_head? (l1 l2 : List Char) (h : l1 <+: l2) (hne : l1 ≠ []) :
    l2.head? = l1.head? := by
  obtain ⟨t, ht⟩ := h
  rw [← ht, List.head?_append]
  cases l1 with
  | nil => exact absurd rfl hne
  | cons a r => rfl

theorem pstrip_head?_not_ws (l : List Char) (c : Char)
    (h : (pstrip l).head? = some c) : c.isWhitespace = false := by
  have hne : pstrip l ≠ [] := by
    intro hnil
    rw [hnil] at h
    simp at h
  have hp := prefix_head? (pstrip l) (l.dropWhile Char.isWhitespace)
    (pstrip_prefix_dropWhile l) hne
  exact dropWhile_head?_false Char.isWhitespace l c (by rw [hp, h])

/-- Chunking a cleaned text never yields the empty list of chunks: a
short text yields the singleton, and on a longer text the first window
starts with the non-whitespace head of the cleaned text, so the first
chunk is appended. -/
theorem chunkText_cleanText_ne_nil (t : List Char) :
    chunkText (cleanText t) 1000 200 ≠ some [] := by
  intro h
  unfold chunkText at h
  split at h
  · exact absurd (Option.some.inj h) (by simp)
  · next hlen =>
    have hnotle : 1000 < (cleanText t).length := by omega
    have hne : cleanText t ≠ [] := by
      intro h0
      rw [h0] at hnotle
      simp at hnotle
    rw [chunkLoop, if_pos (by omega)] at h
    have he : 1 ≤ chunkEnd (cleanText t) 1000 0 - 0 := by
      have := chunkEnd_ge (cleanText t) 1000 0 (by omega)
      omega
    have hck : pstrip (((cleanText t).drop 0).take (chunkEnd (cleanText t) 1000 0 - 0))
        ≠ [] := by
      intro hc
      have hall := (pstrip_eq_nil_iff _).mp hc
      rcases hcl : cleanText t with _ | ⟨c, rest⟩
      · exact hne hcl
      · have hcm : c ∈ ((cleanText t).drop 0).take (chunkEnd (cleanText t) 1000 0 - 0) := by
          rw [List.drop_zero]
          obtain ⟨e', he'⟩ : ∃ e', chunkEnd (cleanText t) 1000 0 - 0 = e' + 1 :=
            ⟨chunkEnd (cleanText t) 1000 0 - 0 - 1, by omega⟩
          rw [he', hcl, List.take_succ_cons]
          exact List.mem_cons_self c _
        have hwc : c.isWhitespace = true := hall c hcm
        have hhead : (pstrip (collapseWs t)).head? = some c := by
          have hh : (cleanText t).head? = some c := by rw [hcl]; rfl
          exact hh
        rw [pstrip_head?_not_ws (collapseWs t) c hhead] at hwc
        exact Bool.false_ne_true hwc
    rw [if_neg hck] at h
    obtain ⟨r, hr⟩ := chunkLoop_acc (cleanText t) 1000 200 _ _ _ _ h
    simp at hr

/-- C3: chunking inside `add_document` never produces zero usable
chunks (the first conjunct: the zero-chunk failure branch at
qa_agent.py lines 67-69 is unreachable, because cleaning a text always
leaves either a short text — returned as one chunk — or a text whose
first window holds a non-whitespace character), and every failing
`add_document` call leaves the agent — in particular the Store and all
pre-existing records — exactly as it was. -/
theorem addDocument_zero_chunks (a : Agent) (emb : List Char → Vec)
    (text : List Char) (title d ts : String) :
    chunkText (cleanText text) 1000 200 ≠ some [] ∧
      ((addDocument a emb text title d ts).1 = false →
        (addDocument a emb text title d ts).2 = a) := by
  refine ⟨chunkText_cleanText_ne_nil text, ?_⟩
  intro hf
  unfold addDocument at hf ⊢
  split at hf
  · next hshort => rw [if_pos hshort]
  · next hlong =>
    rcases hct : chunkText (cleanText text) 1000 200 with _ | l
    · have := chunkText_isSome (cleanText text) 1000 200 (by omega)
      rw [hct] at this
      simp at this
    · cases l with
      | nil => exact absurd hct (chunkText_cleanText_ne_nil text)
      | cons c rest =>
        simp only [] at hf
        rw [hct] at hf
        simp at hf

/-- Witness for `addDocument_zero_chunks`: a too-short text fails and
leaves the agent unchanged. -/
theorem addDocument_zero_chunks_witness :
    (addDocument (Agent.mk none [] (VectorStore.mk [] [] none))
        (fun _ => [1]) "short".data "T" "d1" "t1").1 = false ∧
      (addDocument (Agent.mk none [] (VectorStore.mk [] [] none))
          (fun _ => [1]) "short".data "T" "d1" "t1").2
        = Agent.mk none [] (VectorStore.mk [] [] none) :=
  ⟨rfl,
    (addDocument_zero_chunks (Agent.mk none [] (VectorStore.mk [] [] none))
      (fun _ => [1]) "short".data "T" "d1" "t1").2 rfl⟩

/-! ## No retention for an unset owner key (claim C10) -/

theorem foldl_addText_metadata (emb : List Char → Vec)
    (f : Nat × List Char → ChunkMeta) :
    ∀ (pairs : List (Nat × List Char)) (st : VectorStore),
      (pairs.foldl (fun s ic => s.add_text emb ic.2 (f ic)) st).metadata
        = st.metadata ++ pairs.map (fun ic => { f ic with full_text := some ic.2 }) := by
  intro pairs
  induction pairs with
  | nil => intro st; simp
  | cons p r ih =>
    intro st
    simp only [List.foldl_cons, List.map_cons]
    rw [ih]
    simp [VectorStore.add_text, List.append_assoc]

/-- On the success path (text long enough, chunking yields a non-empty
chunk list), `add_document` reports success and its resulting state is:
cleanup applied, the new document appended, and the chunk records
appended to the store. -/
theorem addDocument_success_eq (a : Agent) (emb : List Char → Vec)
    (text : List Char) (title d ts : String)
    (hlong : ¬ (pstrip text).length < 10) (c0 : List Char)
    (rest : List (List Char))
    (hct : chunkText (cleanText text) 1000 200 = some (c0 :: rest)) :
    addDocument a emb text title d ts =
      (true,
        { user_id := (cleanupUserDocuments a 5).user_id
          documents := (cleanupUserDocuments a 5).documents ++
            [{ doc_id := d, user_id := a.user_id, text := cleanText text,
               title := title, chunks := c0 :: rest, upload_time := ts }]
          store := (c0 :: rest).enum.foldl
            (fun st ic =>
              st.add_text emb ic.2 (mkChunkMeta a.user_id d title ts ic.1 ic.2))
            (cleanupUserDocuments a 5).store }) := by
  unfold addDocument
  rw [if_neg hlong]
  simp only []
  rw [hct]

/-- C10: with an unset owner key (`None` or the empty string) the
retention cleanup returns without removing anything, and every
successful `add_document` call purely appends: the in-memory documents
grow by the new document and the store metadata grows by the new chunk
records, none of the pre-existing records being evicted — so distinct
documents accumulate without bound. -/
theorem cleanup_skipped_when_user_unset (a : Agent) (emb : List Char → Vec)
    (text : List Char) (title d ts : String)
    (hu : truthyU a.user_id = false) :
    cleanupUserDocuments a 5 = a ∧
      ((addDocument a emb text title d ts).1 = true →
        ∃ doc news,
          (addDocument a emb text title d ts).2.documents
              = a.documents ++ [doc] ∧
            (addDocument a emb text title d ts).2.store.metadata
              = a.store.metadata ++ news ∧
            news ≠ [] ∧ ∀ m ∈ news, m.doc_id = d) := by
  have hclean : cleanupUserDocuments a 5 = a := by
    unfold cleanupUserDocuments
    rw [hu]
    rfl
  refine ⟨hclean, ?_⟩
  intro hs
  rcases hct : chunkText (cleanText text) 1000 200 with _ | l
  · have h2 := chunkText_isSome (cleanText text) 1000 200 (by omega)
    rw [hct] at h2
    simp at h2
  · cases l with
    | nil => exact absurd hct (chunkText_cleanText_ne_nil text)
    | cons c rest =>
      by_cases hlong : (pstrip text).length < 10
      · unfold addDocument at hs
        rw [if_pos hlong] at hs
        simp at hs
      · rw [addDocument_success_eq a emb text title d ts hlong c rest hct, hclean]
        refine ⟨_, (c :: rest).enum.map
            (fun ic =>
              { mkChunkMeta a.user_id d title ts ic.1 ic.2 with
                  full_text := some ic.2 }),
          rfl, ?_, ?_, ?_⟩
        · exact foldl_addText_metadata emb
            (fun ic => mkChunkMeta a.user_id d title ts ic.1 ic.2)
            (c :: rest).enum a.store
        · simp [List.enum_cons]
        · intro m hm
          rw [List.mem_map] at hm
          obtain ⟨ic, _, hic⟩ := hm
          rw [← hic]
          rfl

/-- Witness for `cleanup_skipped_when_user_unset`: an agent with no
user id successfully adds a document and nothing is evicted. -/
theorem cleanup_skipped_when_user_unset_witness :
    cleanupUserDocuments (Agent.mk none [] (VectorStore.mk [] [] none)) 5
        = Agent.mk none [] (VectorStore.mk [] [] none) ∧
      ∃ doc news,
        (addDocument (Agent.mk none [] (VectorStore.mk [] [] none))
            (fun _ => [1]) "hello world test data".data "T" "d1" "t1").2.documents
            = [] ++ [doc] ∧
          (addDocument (Agent.mk none [] (VectorStore.mk [] [] none))
              (fun _ => [1]) "hello world test data".data "T" "d1" "t1").2.store.metadata
            = [] ++ news ∧
          news ≠ [] ∧ ∀ m ∈ news, m.doc_id = "d1" := by
  have h := cleanup_skipped_when_user_unset
    (Agent.mk none [] (VectorStore.mk [] [] none)) (fun _ => [1])
    "hello world test data".data "T" "d1" "t1" rfl
  exact ⟨h.1, h.2 (by rfl)⟩

/-! ## Eviction of the oldest document (claim C4) -/

theorem mem_insSorted (x y : String × String) :
    ∀ l, y ∈ insSorted x l ↔ y = x ∨ y ∈ l := by
  intro l
  induction l with
  | nil => simp [insSorted]
  | cons z r ih =>
    rw [insSorted]
    by_cases hxz : x.2 < z.2
    · rw [if_pos hxz]
      simp only [List.mem_cons]
    · rw [if_neg hxz]
      simp only [List.mem_cons, ih]
      tauto

theorem pairwise_insSorted (x : String × String) :
    ∀ l, l.Pairwise (fun p q => p.2 ≤ q.2) →
      (insSorted x l).Pairwise (fun p q => p.2 ≤ q.2) := by
  intro l
  induction l with
  | nil => intro _; simp [insSorted]
  | cons z r ih =>
    intro h
    rw [List.pairwise_cons] at h
    rw [insSorted]
    by_cases hxz : x.2 < z.2
    · rw [if_pos hxz]
      rw [List.pairwise_cons]
      constructor
      · intro b hb
        rcases List.mem_cons.mp hb with h1 | h2
        · rw [h1]; exact le_of_lt hxz
        · exact le_trans (le_of_lt hxz) (h.1 b h2)
      · rw [List.pairwise_cons]
        exact h
    · rw [if_neg hxz]
      rw [List.pairwise_cons]
      constructor
      · intro b hb
        rcases (mem_insSorted x b r).mp hb with h1 | h2
        · rw [h1]; exact le_of_not_lt hxz
        · exact h.1 b h2
      · exact ih h.2

theorem pairwise_sortByTime_aux :
    ∀ (l : List (String × String)) (acc : List (String × String)),
      acc.Pairwise (fun p q => p.2 ≤ q.2) →
        (l.foldl (fun acc x => insSorted x acc) acc).Pairwise
          (fun p q => p.2 ≤ q.2) := by
  intro l
  induction l with
  | nil => intro acc h; exact h
  | cons x r ih =>
    intro acc h
    exact ih (insSorted x acc) (pairwise_insSorted x acc h)

theorem mem_sortByTime_aux (y : String × String) :
    ∀ (l : List (String × String)) (acc : List (String × String)),
      y ∈ l.foldl (fun acc x => insSorted x acc) acc ↔ y ∈ acc ∨ y ∈ l := by
  intro l
  induction l with
  | nil => intro acc; simp
  | cons x r ih =>
    intro acc
    rw [List.foldl_cons, ih, mem_insSorted]
    simp [List.mem_cons]
    tauto

/-- When `z` is the strict minimum of `l` by time, the stable sort
places exactly `z` first. -/
theorem sortByTime_min_head (l : List (String × String)) (z : String × String)
    (hz : z ∈ l) (hmin : ∀ p ∈ l, p ≠ z → z.2 < p.2) :
    ∃ t, sortByTime l = z :: t := by
  have hzmem : z ∈ sortByTime l := by
    unfold sortByTime
    rw [mem_sortByTime_aux]
    exact Or.inr hz
  rcases hsort : sortByTime l with _ | ⟨hd, tl⟩
  · rw [hsort] at hzmem
    simp at hzmem
  · have hpw : (hd :: tl).Pairwise (fun p q => p.2 ≤ q.2) := by
      rw [← hsort]
      exact pairwise_sortByTime_aux l [] (List.Pairwise.nil)
    have hhd : hd ∈ l := by
      have : hd ∈ sortByTime l := by rw [hsort]; exact List.mem_cons_self hd tl
      unfold sortByTime at this
      rw [mem_sortByTime_aux] at this
      simpa using this
    by_cases heq : hd = z
    · exact ⟨tl, by rw [heq]⟩
    · exfalso
      have hlt : z.2 < hd.2 := hmin hd hhd heq
      rw [hsort] at hzmem
      rcases List.mem_cons.mp hzmem with h1 | h2
      · exact heq (h1.symm)
      · have := (List.pairwise_cons.mp hpw).1 z h2
        exact absurd hlt (not_lt_of_le this)

theorem docTimes_fold_mem (p : String × String) :
    ∀ (l : List ChunkMeta) (acc : List (String × String)),
      p ∈ l.foldl
        (fun acc m =>
          if m.doc_id ≠ "" ∧ (acc.lookup m.doc_id).isNone then
            acc ++ [(m.doc_id, m.upload_time)]
          else acc) acc →
      p ∈ acc ∨ ∃ m ∈ l, m.doc_id = p.1 ∧ m.upload_time = p.2 := by
  intro l
  induction l with
  | nil => intro acc h; exact Or.inl h
  | cons m r ih =>
    intro acc h
    rw [List.foldl_cons] at h
    rcases ih _ h with h1 | h2
    · by_cases hc : m.doc_id ≠ "" ∧ (acc.lookup m.doc_id).isNone
      · rw [if_pos hc] at h1
        rcases List.mem_append.mp h1 with ha | hb
        · exact Or.inl ha
        · refine Or.inr ⟨m, List.mem_cons_self m r, ?_⟩
          have : p = (m.doc_id, m.upload_time) := by simpa using hb
          rw [this]
          exact ⟨rfl, rfl⟩
      · rw [if_neg hc] at h1
        exact Or.inl h1
    · obtain ⟨m', hm', hp⟩ := h2
      exact Or.inr ⟨m', List.mem_cons_of_mem m hm', hp⟩

theorem docTimes_mem (metas : List ChunkMeta) (uid : Option String)
    (p : String × String) (h : p ∈ docTimes metas uid) :
    ∃ m ∈ metas, (m.user_id == uid) = true ∧ m.doc_id = p.1 ∧
      m.upload_time = p.2 := by
  unfold docTimes at h
  rcases docTimes_fold_mem p _ [] h with h1 | h2
  · simp at h1
  · obtain ⟨m, hm, hp⟩ := h2
    exact ⟨m, (List.mem_filter.mp hm).1, (List.mem_filter.mp hm).2, hp⟩

/-- With a truthy owner key and exactly 5 distinct documents whose
strict time-minimum is `(oldId, oldT)`, the retention cleanup removes
exactly that one document. -/
theorem cleanup_evicts_min (a : Agent) (u oldId oldT : String)
    (hu : a.user_id = some u) (hune : u ≠ "")
    (hcount : (docTimes a.store.metadata (some u)).length = 5)
    (hmem : (oldId, oldT) ∈ docTimes a.store.metadata (some u))
    (hmin : ∀ p ∈ docTimes a.store.metadata (some u),
      p ≠ (oldId, oldT) → oldT < p.2) :
    cleanupUserDocuments a 5 = removeDocumentById a oldId := by
  unfold cleanupUserDocuments
  rw [hu]
  rw [if_neg (by simp [truthyU, hune])]
  simp only []
  rw [hcount]
  rw [if_pos (le_refl 5)]
  obtain ⟨t, hsort⟩ :=
    sortByTime_min_head (docTimes a.store.metadata (some u)) (oldId, oldT)
      hmem hmin
  rw [hsort]
  norm_num

/-- C4: for an owner with a non-empty key holding exactly 5 distinct
documents (counted in the store metadata) whose oldest document
`(oldId, oldT)` has a strictly minimal creation timestamp, a successful
`add_document` of a new document removes exactly every chunk record of
that oldest document — the surviving records are the order-preserving
filter dropping `oldId` — appends only the new document's records, and
removes no record belonging to any other owner. -/
theorem addDocument_evicts_oldest (a : Agent) (emb : List Char → Vec)
    (text : List Char) (title d ts : String) (u oldId oldT : String)
    (hu : a.user_id = some u) (hune : u ≠ "")
    (hlen : lenEq a.store)
    (hlong : ¬ (pstrip text).length < 10)
    (hcount : (docTimes a.store.metadata (some u)).length = 5)
    (hmem : (oldId, oldT) ∈ docTimes a.store.metadata (some u))
    (hmin : ∀ p ∈ docTimes a.store.metadata (some u),
      p ≠ (oldId, oldT) → oldT < p.2)
    (hconsist : ∀ m1 ∈ a.store.metadata, ∀ m2 ∈ a.store.metadata,
      m1.doc_id = m2.doc_id → m1.user_id = m2.user_id) :
    (addDocument a emb text title d ts).1 = true ∧
      ∃ news,
        (addDocument a emb text title d ts).2.store.metadata
            = a.store.metadata.filter (fun m => !(m.doc_id == oldId)) ++ news ∧
          (∀ m ∈ news, m.doc_id = d ∧ m.user_id = some u) ∧
          ∀ m ∈ a.store.metadata, m.user_id ≠ some u →
            m ∈ (addDocument a emb text title d ts).2.store.metadata := by
  rcases hct : chunkText (cleanText text) 1000 200 with _ | l
  · have h2 := chunkText_isSome (cleanText text) 1000 200 (by omega)
    rw [hct] at h2
    simp at h2
  · cases l with
    | nil => exact absurd hct (chunkText_cleanText_ne_nil text)
    | cons c rest =>
      have hclean := cleanup_evicts_min a u oldId oldT hu hune hcount hmem hmin
      have hrem := removeDocumentById_metadata a oldId hlen
      have hsucc := addDocument_success_eq a emb text title d ts hlong c rest hct
      rw [hsucc, hclean]
      have hmeta :
          ((c :: rest).enum.foldl
            (fun st ic =>
              st.add_text emb ic.2 (mkChunkMeta a.user_id d title ts ic.1 ic.2))
            (removeDocumentById a oldId).store).metadata
          = a.store.metadata.filter (fun m => !(m.doc_id == oldId)) ++
              (c :: rest).enum.map
                (fun ic =>
                  { mkChunkMeta a.user_id d title ts ic.1 ic.2 with
                      full_text := some ic.2 }) := by
        rw [foldl_addText_metadata emb
          (fun ic => mkChunkMeta a.user_id d title ts ic.1 ic.2)
          (c :: rest).enum (removeDocumentById a oldId).store, hrem]
      refine ⟨rfl, ⟨(c :: rest).enum.map
          (fun ic =>
            { mkChunkMeta a.user_id d title ts ic.1 ic.2 with
                full_text := some ic.2 }), ?_, ?_, ?_⟩⟩
      · exact hmeta
      · intro m hm
        rw [List.mem_map] at hm
        obtain ⟨ic, _, hic⟩ := hm
        rw [← hic]
        exact ⟨rfl, by rw [← hu]; rfl⟩
      · intro m hm hother
        rw [hmeta]
        apply List.mem_append_left
        rw [List.mem_filter]
        refine ⟨hm, ?_⟩
        obtain ⟨m0, hm0, hm0u, hm0d, _⟩ :=
          docTimes_mem a.store.metadata (some u) (oldId, oldT) hmem
        have hne : m.doc_id ≠ oldId := by
          intro hd0
          apply hother
          have := hconsist m hm m0 hm0 (by rw [hd0, hm0d])
          rw [this]
          simpa using hm0u
        simp [hne]

/-- A sample chunk record for the eviction witness. -/
def evictMeta (dId t : String) : ChunkMeta :=
  { user_id := some "u1", doc_id := dId, chunk_index := 0, title := "T",
    doc_title := "T", upload_time := t, text := "x".data, id := none,
    full_text := none }

/-- A store holding exactly 5 distinct documents of owner `u1`. -/
def evictAgent : Agent :=
  { user_id := some "u1", documents := [],
    store :=
      { vectors := [[1], [1], [1], [1], [1]]
        metadata := [evictMeta "d1" "2024-01-01", evictMeta "d2" "2024-01-02",
          evictMeta "d3" "2024-01-03", evictMeta "d4" "2024-01-04",
          evictMeta "d5" "2024-01-05"]
        dimension := some 1 } }

/-- Witness for `addDocument_evicts_oldest`: adding a 6th document for
`u1` evicts exactly `d1`, the oldest. -/
theorem addDocument_evicts_oldest_witness :
    (addDocument evictAgent (fun _ => [1]) "hello world test data".data "T"
        "d6" "2024-01-06").1 = true ∧
      ∃ news,
        (addDocument evictAgent (fun _ => [1]) "hello world test data".data "T"
              "d6" "2024-01-06").2.store.metadata
            = evictAgent.store.metadata.filter (fun m => !(m.doc_id == "d1"))
                ++ news ∧
          (∀ m ∈ news, m.doc_id = "d6" ∧ m.user_id = some "u1") ∧
          ∀ m ∈ evictAgent.store.metadata, m.user_id ≠ some "u1" →
            m ∈ (addDocument evictAgent (fun _ => [1])
              "hello world test data".data "T" "d6" "2024-01-06").2.store.metadata :=
  addDocument_evicts_oldest evictAgent (fun _ => [1])
    "hello world test data".data "T" "d6" "2024-01-06" "u1" "d1" "2024-01-01"
    rfl (by decide) (by decide) (by decide) (by decide) (by decide)
    (by
      intro p hp hne
      have hdt : docTimes evictAgent.store.metadata (some "u1")
          = [("d1", "2024-01-01"), ("d2", "2024-01-02"), ("d3", "2024-01-03"),
             ("d4", "2024-01-04"), ("d5", "2024-01-05")] := by decide
      rw [hdt] at hp
      simp only [List.mem_cons, List.not_mem_nil, or_false] at hp
      rcases hp with rfl | rfl | rfl | rfl | rfl
      · exact absurd rfl hne
      · rw [String.lt_iff_toList_lt]; decide
      · rw [String.lt_iff_toList_lt]; decide
      · rw [String.lt_iff_toList_lt]; decide
      · rw [String.lt_iff_toList_lt]; decide)
    (by decide)

/-! ## The "no relevant information" path (claim C1) -/

/-- An agent whose single stored chunk embeds opposite to every query
(cosine -1), with one in-memory document. -/
def fbAgent : Agent :=
  Agent.mk (some "u1")
    [StoredDoc.mk "dA" (some "u1") "The secret document text.".data "T"
      ["The secret document text.".data] "t1"]
    (VectorStore.mk [[-1]]
      [ChunkMeta.mk (some "u1") "dA" 0 "T" "T" "t1"
        "The secret document text.".data none none]
      (some 1))

instance instDecEqExcept {ε α : Type} [DecidableEq ε] [DecidableEq α] :
    DecidableEq (Except ε α) := fun a b =>
  match a, b with
  | .ok x, .ok y =>
    if h : x = y then isTrue (by rw [h])
    else isFalse (by intro hc; cases hc; exact h rfl)
  | .ok _, .error _ => isFalse (by intro hc; cases hc)
  | .error _, .ok _ => isFalse (by intro hc; cases hc)
  | .error e, .error f =>
    if h : e = f then isTrue (by rw [h])
    else isFalse (by intro hc; cases hc; exact h rfl)

/-- C1 counterexample: both searches (threshold 0.1, then 0.0) return
no results, yet `answer_question` does not return the fixed "no
relevant information found" message — it answers from the most recently
added document's text via the ultimate fallback of
`_get_relevant_context` (qa_agent.py lines 256-262). -/
theorem answer_latest_doc_fallback_counterexample :
    similaritySearchE fbAgent.store (fun _ => .ok [1])
        "What is it about?".data 3 simThreshold fbAgent.user_id = .ok [] ∧
      similaritySearchE fbAgent.store (fun _ => .ok [1])
        "What is it about?".data 3 0 fbAgent.user_id = .ok [] ∧
      answerQuestionE fbAgent (fun _ => .ok [1])
          (fun _ _ => .ok "The sky is blue".data) "What is it about?".data
        = .ok "The sky is blue".data ∧
      answerQuestionE fbAgent (fun _ => .ok [1])
          (fun _ _ => .ok "The sky is blue".data) "What is it about?".data
        ≠ .ok msgNoRelevant := by
  decide

theorem latestFallback_nil (a : Agent) (hdocs : a.documents = []) :
    latestFallback a = [] := by
  unfold latestFallback
  rw [hdocs]
  rfl

/-- C1 (amended): when both searches (threshold 0.1, then 0.0) return
no results, `answer_question` returns the fixed "no relevant
information found" message only if the in-memory documents list is
empty; (per the counterexample, with a non-empty documents list the
ultimate fallback answers from the most recently added document
instead). -/
theorem answer_no_relevant_message (a : Agent)
    (emb : List Char → Except (List Char) Vec)
    (gen : List Char → List Char → Except (List Char) (List Char))
    (q : List Char)
    (hq : ¬ (pstrip q).length < 3)
    (hv : ¬ a.store.vectors = [])
    (hdocs : a.documents = [])
    (h1 : similaritySearchE a.store emb q 3 simThreshold a.user_id = .ok [])
    (h0 : similaritySearchE a.store emb q 3 0 a.user_id = .ok []) :
    answerQuestionE a emb gen q = .ok msgNoRelevant := by
  have hlf : latestFallback a = [] := latestFallback_nil a hdocs
  have hctx : getRelevantContext a emb q 3 = [] := by
    unfold getRelevantContext
    rw [if_neg hv, h1, h0, hlf]
    rfl
  unfold answerQuestionE
  rw [if_neg hq, if_neg hv, hctx]
  rfl

/-- An agent of owner `u1` whose store holds only another owner's
record, with an empty in-memory documents list. -/
def fbAgent2 : Agent :=
  Agent.mk (some "u1") []
    (VectorStore.mk [[1]]
      [ChunkMeta.mk (some "u2") "dB" 0 "T" "T" "t1" "other".data none none]
      (some 1))

/-- Witness for `answer_no_relevant_message`. -/
theorem answer_no_relevant_message_witness :
    (¬ (pstrip "Why is it so?".data).length < 3) ∧
      (¬ fbAgent2.store.vectors = []) ∧
      fbAgent2.documents = [] ∧
      similaritySearchE fbAgent2.store (fun _ => .ok [1]) "Why is it so?".data 3
        simThreshold fbAgent2.user_id = .ok [] ∧
      similaritySearchE fbAgent2.store (fun _ => .ok [1]) "Why is it so?".data 3
        0 fbAgent2.user_id = .ok [] ∧
      answerQuestionE fbAgent2 (fun _ => .ok [1])
          (fun _ _ => .ok "unused".data) "Why is it so?".data
        = .ok msgNoRelevant :=
  ⟨by decide, by decide, rfl, by decide, by decide,
    answer_no_relevant_message fbAgent2 (fun _ => .ok [1])
      (fun _ _ => .ok "unused".data) "Why is it so?".data
      (by decide) (by decide) rfl (by decide) (by decide)⟩

/-! ## Context is built from the stored preview, not the full chunk
(claim C2) -/

/-- A 155-character document text (one chunk, longer than the
100-character preview bound). -/
def c2Text : List Char :=
  "The quick brown fox jumps over the lazy dog while the calm river flows through the quiet valley and the bright sun warms the soft meadow near the old mill.".data

/-- The agent state after `add_document` of `c2Text`. -/
def c2Agent : Agent :=
  (addDocument (Agent.mk (some "u1") [] (VectorStore.mk [] [] none))
    (fun _ => [1]) c2Text "T" "dX" "t1").2

set_option maxRecDepth 8192 in
/-- C2, evaluated at the failing input: after adding a 155-character
document, the stored metadata `text` is the 100-character preview with
a trailing ellipsis — not the full chunk — and the context assembled
for a matching question is the labelled preview, which differs from the
labelled full chunk text the claim describes. -/
theorem preview_truncation_bug :
    c2Text.length = 155 ∧
      c2Agent.store.metadata.map (fun m => m.text)
        = [c2Text.take 100 ++ "...".data] ∧
      c2Text.take 100 ++ "...".data ≠ c2Text ∧
      getRelevantContext c2Agent (fun _ => .ok [1])
          "What is the text about?".data 3
        = "[From: T]\n".data ++ (c2Text.take 100 ++ "...".data) ∧
      getRelevantContext c2Agent (fun _ => .ok [1])
          "What is the text about?".data 3
        ≠ "[From: T]\n".data ++ c2Text := by
  decide
